import Mathlib

/-!
Verification development for the `PromptEngine` class of ts-context-mcp
(src/src/engine.ts, final revision, lines 1-215).  The TypeScript syntax
tree is shallowly embedded: every node kind that the engine's walkers
distinguish becomes a constructor, and the raw source text a walker slices
is carried as explicit string fields.  All paths are POSIX-style, so
`path.sep` is the slash and `relResolved.split(path.sep).join(sep)` is
modelled by splitting and rejoining on the slash.  Callable bodies and
variable initializers are opaque strings, as the engine never renders
their inner structure.
-/

namespace TsContextMcp

/-- Character test used to cut a declaration at its first open brace. -/
def notBrace (c : Char) : Bool := c != '\x7b'

/-- Characters of `s` before the first open brace: models the JavaScript
expression `s.split(...)[0]` used by `getSkeleton` to cut a declaration
at its first open-brace character. -/
def takeUntilBrace (s : String) : String :=
  String.mk (s.data.takeWhile notBrace)

/-- Models `String.prototype.includes`: substring test. -/
def strContains (s pat : String) : Bool :=
  decide (pat.data <:+: s.data)

/-- Models `String.prototype.startsWith`. -/
def strStartsWith (s pre : String) : Bool :=
  decide (pre.data <+: s.data)

/-- Models `String.prototype.endsWith`, written over the character list so
it evaluates by kernel reduction. -/
def strEndsWith (s suf : String) : Bool :=
  decide (suf.data.reverse <+: s.data.reverse)

/-- Models `String.prototype.trim`: strips leading and trailing whitespace
characters, written over the character list. -/
def strTrim (s : String) : String :=
  String.mk (((s.data.dropWhile Char.isWhitespace).reverse.dropWhile Char.isWhitespace).reverse)

/-- Models `Array.prototype.join(sep)`. -/
def joinSep (sep : String) : List String → String
  | [] => ""
  | [x] => x
  | x :: y :: xs => x ++ sep ++ joinSep sep (y :: xs)

/-- Models `text.replace(...)` with the anchored one-semicolon pattern used
by the re-export branch: strips a single trailing semicolon. -/
def stripSemi (s : String) : String :=
  if strEndsWith s ";" then String.mk s.data.dropLast else s

/-- Models `relPath.replace(...)` with the anchored dot-slash pattern of
`getDeps`: strips one leading "./". -/
def stripDotSlash (s : String) : String :=
  if strStartsWith s "./" then String.mk (s.data.drop 2) else s

/-- Splitting a character list at every slash, with an accumulator for the
piece being read (models the single-separator `split` the engine uses). -/
def splitSlashAux : List Char → List Char → List (List Char)
  | [], acc => [acc.reverse]
  | c :: cs, acc =>
    if c = '/' then acc.reverse :: splitSlashAux cs [] else splitSlashAux cs (c :: acc)

/-- Models `s.split(sep)` for the slash separator. -/
def splitSlash (s : String) : List String :=
  (splitSlashAux s.data []).map String.mk

/-- Models `relResolved.split(path.sep).join(sep)` on a POSIX host where
`path.sep` is the slash: split on the slash and rejoin with the slash. -/
def normalizeSep (s : String) : String :=
  joinSep "/" (splitSlash s)

/-- Models `indentUnit.repeat(depth)` with the two-space indent unit. -/
def indentStr (d : Nat) : String :=
  String.join (List.replicate d "  ")

/-- Path components of a POSIX path string (empty pieces dropped, mirroring
how absolute and relative path strings decompose). -/
def splitPath (s : String) : List String :=
  (splitSlash s).filter (fun c => c ≠ "")

/-- Models `path.resolve(root, p)` for the inputs the engine feeds it: an
absolute `p` wins, a relative one is appended to the root. -/
def pathResolve (root p : String) : String :=
  if strStartsWith p "/" then p else root ++ "/" ++ p

/-- Component-wise relative path: drop the common prefix, then one ".." per
remaining root component followed by the remaining target components. -/
def relComps : List String → List String → List String
  | [], bs => bs
  | a :: as, [] => List.replicate (a :: as).length ".."
  | a :: as, b :: bs =>
    if a = b then relComps as bs
    else List.replicate (a :: as).length ".." ++ (b :: bs)

/-- Models `path.relative(root, target)` on POSIX paths. -/
def pathRelative (root target : String) : String :=
  joinSep "/" (relComps (splitPath root) (splitPath target))

mutual

/-- One `VariableDeclaration` binding: `name` is `decl.name.getText()`,
`tyAnn` and `init` the declared-type and initializer texts, and
`initKids` the declaration nodes nested inside the initializer expression
(object-literal methods, declarations inside arrow-function bodies) in
the pre-order `ts.forEachChild` reaches them. -/
inductive VarDecl where
  | mk (name : String) (tyAnn : Option String) (init : Option String) (initKids : NodeList)

/-- A list of sibling bindings of one variable statement. -/
inductive VarDeclList where
  | nil
  | cons (head : VarDecl) (tail : VarDeclList)

/-- One TypeScript syntax node at the granularity the engine's walkers
distinguish.  `sig` of a callable is the raw source slice from the start
of the node up to its body-opening brace (modifiers included); `body` is
the raw text between the body braces, `none` for a bodyless overload or
ambient signature; `kids` are the declaration nodes nested inside the
body, in the pre-order `ts.forEachChild` reaches them — the skeleton
visit never descends into a callable, but the locator visit does.
`text` fields carry `node.getText()` verbatim. -/
inductive Node where
  | interfaceDecl (text : String)
  | typeAliasDecl (text : String)
  | classDecl (modifiers : List String) (name : Option String) (members : NodeList)
  | functionDecl (modifiers : List String) (name : Option String) (sig : String)
      (body : Option String) (kids : NodeList)
  | methodDecl (modifiers : List String) (name : String) (sig : String)
      (body : Option String) (kids : NodeList)
  | ctorDecl (sig : String) (body : Option String) (kids : NodeList)
  | variableStatement (modifiers : List String) (decls : VarDeclList) (text : String)
  | exportDecl (text : String) (specifier : Option String)
  | importDecl (text : String) (specifier : Option String)
  | otherNode (children : NodeList)

/-- A list of sibling nodes (mutual with `Node` to keep recursion and
induction structural). -/
inductive NodeList where
  | nil
  | cons (head : Node) (tail : NodeList)

end

/-- The bound name of one binding (`decl.name.getText()`). -/
def VarDecl.name : VarDecl → String
  | .mk n _ _ _ => n

/-- The declared-type annotation text of one binding, when present. -/
def VarDecl.tyAnn : VarDecl → Option String
  | .mk _ t _ _ => t

/-- The initializer text of one binding, when present. -/
def VarDecl.init : VarDecl → Option String
  | .mk _ _ i _ => i

/-- The declaration nodes nested inside one binding's initializer. -/
def VarDecl.initKids : VarDecl → NodeList
  | .mk _ _ _ k => k

/-- The bindings of a statement as a plain list, in order. -/
def VarDeclList.toList : VarDeclList → List VarDecl
  | .nil => []
  | .cons h t => h :: VarDeclList.toList t

/-- Map over the bindings of a statement. -/
def VarDeclList.map (f : VarDecl → VarDecl) : VarDeclList → VarDeclList
  | .nil => .nil
  | .cons h t => .cons (f h) (VarDeclList.map f t)

/-- Concatenation of binding lists, used to talk about the bindings split
around one distinguished binding. -/
def VarDeclList.app : VarDeclList → VarDeclList → VarDeclList
  | .nil, l => l
  | .cons h t, l => .cons h (VarDeclList.app t l)

/-- Full source text of a callable: signature slice, then "{body}" when a
body is present (models `node.getText()` for callables). -/
def callableText (sig : String) (body : Option String) : String :=
  match body with
  | some b => sig ++ "\x7b" ++ b ++ "\x7d"
  | none => sig

/-- Models `node.modifiers?.map(m => m.getText()).join(sep) || empty`:
the joined modifier texts, empty for an absent modifier array. -/
def joinMods (mods : List String) : String :=
  joinSep " " mods

/-- Models `node.name?.getText() || fallback` in the class branch. -/
def classNameOr (name : Option String) : String :=
  match name with
  | some s => if s = "" then "Anonymous" else s
  | none => "Anonymous"

def NodeList.toList : NodeList → List Node
  | .nil => []
  | .cons h t => h :: NodeList.toList t

/-- Concatenation of sibling lists, used to talk about a statement list
split around one distinguished node. -/
def NodeList.app : NodeList → NodeList → NodeList
  | .nil, l => l
  | .cons h t, l => .cons h (NodeList.app t l)

mutual

/-- The `visit(node, depth)` closure of `getSkeleton` (engine.ts lines
184-212): returns the text appended to `output` for this subtree. -/
def renderNode : Node → Nat → String
  | .interfaceDecl text, d =>
    indentStr d ++ strTrim (takeUntilBrace text) ++ " \x7b /* ... */ \x7d\n"
  | .typeAliasDecl text, d =>
    indentStr d ++ strTrim (takeUntilBrace text) ++ " \x7b /* ... */ \x7d\n"
  | .classDecl mods name members, d =>
    let m := joinMods mods
    indentStr d ++ (if m = "" then "" else m ++ " ") ++ "class " ++ classNameOr name
      ++ " \x7b\n" ++ renderList members (d + 1) ++ indentStr d ++ "\x7d\n"
  | .functionDecl _ _ sig body _, d =>
    indentStr d ++ strTrim (takeUntilBrace (callableText sig body)) ++ "; // implementation hidden\n"
  | .methodDecl _ _ sig body _, d =>
    indentStr d ++ strTrim (takeUntilBrace (callableText sig body)) ++ "; // implementation hidden\n"
  | .ctorDecl sig body _, d =>
    indentStr d ++ strTrim (takeUntilBrace (callableText sig body)) ++ "; // implementation hidden\n"
  | .variableStatement mods decls _, d =>
    let m := joinMods mods
    if strContains m "export" then
      String.join (decls.toList.map (fun dc =>
        indentStr d ++ m ++ " const " ++ dc.name ++ "; // variable export\n"))
    else ""
  | .exportDecl text _, d =>
    indentStr d ++ stripSemi text ++ "; // re-export\n"
  | .importDecl _ _, _ => ""
  | .otherNode children, d => renderList children d

/-- Walk of a sibling list at one depth (the `ts.forEachChild` loops of
`getSkeleton`), concatenating each child's rendering. -/
def renderList : NodeList → Nat → String
  | .nil, _ => ""
  | .cons h t, d => renderNode h d ++ renderList t d

end

/-- One `ts.SourceFile` of the program snapshot.  `exportNames` models what
`checker.getSymbolAtLocation(sf)` followed by `checker.getExportsOfModule`
yields: `none` when the file has no module symbol, otherwise the export
names in the checker's enumeration order. -/
structure SourceFile where
  fileName : String
  isDeclarationFile : Bool
  stmts : NodeList
  exportNames : Option (List String)

/-- The `ts.Program` snapshot: its source files and the module-resolution
function `ts.resolveModuleName(raw, containingFile, options, host)`,
abstracted to the resolved absolute file name (or `none` when no module
was resolved). -/
structure Program where
  files : List SourceFile
  resolve : String → String → Option String

/-- Models `program.getSourceFile(fullPath)`. -/
def Program.getSourceFile (p : Program) (fullPath : String) : Option SourceFile :=
  p.files.find? (fun f => f.fileName == fullPath)

/-- The `PromptEngine` instance state: `program` and `checkerPresent` model
the two optional fields left unset when `refresh` fails before assigning
them; `disk` models `fs.existsSync`. -/
structure PromptEngine where
  rootDir : String
  program : Option Program
  checkerPresent : Bool
  disk : String → Bool

/-- An engine as constructed before its first successful `refresh`: both
compiler fields are still unset. -/
def initialEngine (root : String) (disk : String → Bool) : PromptEngine :=
  { rootDir := root, program := none, checkerPresent := false, disk := disk }

/-- One `refresh()` call (engine.ts lines 25-61): a successful run swaps in
the freshly built program and checker; a run whose body throws is caught
by the surrounding try/catch, which only logs, leaving the fields as they
were. -/
def refreshResult (e : PromptEngine) (outcome : Option (Program × Bool)) : PromptEngine :=
  match outcome with
  | some (p, c) => { e with program := some p, checkerPresent := c }
  | none => e

/-- One line of `getRepoMap` (engine.ts lines 87-93). -/
def repoEntry (root : String) (f : SourceFile) : String :=
  let exports := f.exportNames.getD []
  let joined := joinSep ", " exports
  "[" ++ pathRelative root f.fileName ++ "]: " ++ (if joined = "" then "none" else joined)

/-- The source files `getRepoMap` reports on: non-declaration files whose
name does not mention node_modules. -/
def repoFiles (p : Program) : List SourceFile :=
  p.files.filter (fun f => !f.isDeclarationFile && !strContains f.fileName "node_modules")

/-- `getRepoMap()` (engine.ts lines 84-94). -/
def getRepoMap (e : PromptEngine) : String :=
  match e.program, e.checkerPresent with
  | some p, true => joinSep "\n" ((repoFiles p).map (repoEntry e.rootDir))
  | _, _ => "Program not initialized"

/-- `getSkeleton(filePath)` (engine.ts lines 178-215).  The walk starts at
the source file, which falls to the recurse-through branch, so the
top-level statements are rendered at depth zero after the header line. -/
def getSkeleton (e : PromptEngine) (filePath : String) : String :=
  let fullPath := pathResolve e.rootDir filePath
  match e.program.bind (fun p => p.getSourceFile fullPath) with
  | none => if e.disk fullPath then "// Skeleton Error" else "File not found"
  | some sf => "// Skeleton for " ++ filePath ++ "\n" ++ renderList sf.stmts 0

/-- The module specifier of a top-level statement when it is an import or
an export declaration carrying a string-literal specifier (the condition
of the `forEachChild` callback in `getDeps`, engine.ts lines 146-147). -/
def depSpec : Node → Option String
  | .importDecl _ s => s
  | .exportDecl _ s => s
  | _ => none

/-- One dependency line of `getDeps` (engine.ts lines 149-171): resolved
specifiers are rendered relative to the root with normalized separators
and one leading "./" stripped; unresolved ones get the fixed marker. -/
def depLine (root : String) (resolve : String → String → Option String)
    (fullPath raw : String) : String :=
  match resolve raw fullPath with
  | some resolvedFileName =>
    "- " ++ raw ++ " -> " ++ stripDotSlash (normalizeSep (pathRelative root resolvedFileName))
  | none => "- " ++ raw ++ " -> " ++ "External Library"

/-- `getDeps(filePath)` (engine.ts lines 127-175).  The optional-chained
`program?.getSourceFile` makes a missing program indistinguishable from a
missing file: both produce the not-found sentinel. -/
def getDeps (e : PromptEngine) (filePath : String) : String :=
  let fullPath := pathResolve e.rootDir filePath
  match e.program with
  | none => "File not found"
  | some p =>
    match p.getSourceFile fullPath with
    | none => "File not found"
    | some sf =>
      let deps := (sf.stmts.toList.filterMap depSpec).map (depLine e.rootDir p.resolve fullPath)
      if deps = [] then "No local dependencies found." else joinSep "\n" deps

mutual

/-- The `visit(node)` closure of `getMethodImplementation` (engine.ts lines
105-116) on one node: the first matching declaration's text, or the empty
string when the subtree holds none (the code's falsy `result`).  A node
whose name does not match is recursed into via `ts.forEachChild`, so the
search descends into callable bodies (`kids`) and, binding by binding,
into variable initializers (`initKids`), where nested declarations can
match first in pre-order.  A constructor's `name` accessor is undefined,
so the optional-chained comparison with the requested name is always
false and a constructor is never matched by name — only its body is
searched; the type members an interface walks into can hold no matching
declaration kind. -/
def implNode (m : String) : Node → String
  | .functionDecl _ name sig body kids =>
    if name == some m then callableText sig body else implList m kids
  | .methodDecl _ name sig body kids =>
    if name == m then callableText sig body else implList m kids
  | .ctorDecl _ _ kids => implList m kids
  | .variableStatement _ decls text => implDecls m decls text
  | .classDecl _ _ members => implList m members
  | .otherNode children => implList m children
  | _ => ""

/-- The bindings of one variable statement, searched in order: a binding
whose name matches yields the text of the enclosing statement (the
`node.parent.parent` step of engine.ts line 109) and its initializer is
not entered (the visit returns); a binding whose name does not match has
its initializer searched before the next binding is considered.  An empty
statement text is falsy, so the walk continues past it, exactly as the
code's `if (result) return` does. -/
def implDecls (m : String) : VarDeclList → String → String
  | .nil, _ => ""
  | .cons (.mk nm _ _ kids) ds, text =>
    let r := if nm == m then text else implList m kids
    if r ≠ "" then r else implDecls m ds text

/-- Pre-order search of a sibling list with the code's short-circuit on a
truthy `result`. -/
def implList (m : String) : NodeList → String
  | .nil => ""
  | .cons h t =>
    let r := implNode m h
    if r ≠ "" then r else implList m t

end

/-- `getMethodImplementation(filePath, methodName)` (engine.ts lines
97-125): a disk check first, then the pre-order search, then the fixed
definition-not-found message when nothing (or no file) matched. -/
def getMethodImplementation (e : PromptEngine) (filePath m : String) : String :=
  let fullPath := pathResolve e.rootDir filePath
  if !(e.disk fullPath) then "File not found"
  else
    let r := match e.program.bind (fun p => p.getSourceFile fullPath) with
      | some sf => implList m sf.stmts
      | none => ""
    if r ≠ "" then r else "Definition for \x27" ++ m ++ "\x27 not found in " ++ filePath

/-- The recursion bound of `getFilesRecursive` (engine.ts line 64). -/
def MAX_DEPTH : Nat := 10

/-- The directory names skipped at any depth (engine.ts line 65). -/
def ignoreDirs : List String := ["node_modules", ".git", "dist", "build", ".vscode"]

/-- The source-extension filter (engine.ts line 75). -/
def isSourceFile (name : String) : Bool :=
  strEndsWith name ".js" || strEndsWith name ".jsx" || strEndsWith name ".ts"
    || strEndsWith name ".tsx"

/-- One directory entry as `readdirSync` plus `statSync` report it. -/
structure FSEntry where
  name : String
  isDir : Bool

/-- A file system: the entries of each directory, keyed by the directory's
component path.  The function is total over arbitrarily deep (even
cyclic) structures, which is exactly what the depth guard protects
against; an unreadable directory is one with no entries, matching the
per-directory swallow of engine.ts line 79. -/
def FileSys := List String → List FSEntry

/-- `getFilesRecursive(dir, allFiles, depth)` (engine.ts lines 63-81),
returning the collected file paths in traversal order.  Termination rests
only on the depth budget, never on the file system being finite. -/
def getFilesRecursive (fsys : FileSys) (dir : List String) (depth : Nat) : List (List String) :=
  if _h : depth > MAX_DEPTH then []
  else
    (fsys dir).flatMap (fun en =>
      if ignoreDirs.contains en.name then []
      else if en.isDir then getFilesRecursive fsys (dir ++ [en.name]) (depth + 1)
      else if isSourceFile en.name then [dir ++ [en.name]] else [])
termination_by MAX_DEPTH + 1 - depth
decreasing_by simp only [MAX_DEPTH] at *; omega

mutual

/-- Replace every callable body in a subtree by the absent body.  The
skeleton renderer never reads these fields, which is the precise sense in
which no statement of an implementation can reach its output. -/
def eraseBodies : Node → Node
  | .functionDecl mods name sig _ _ => .functionDecl mods name sig none .nil
  | .methodDecl mods name sig _ _ => .methodDecl mods name sig none .nil
  | .ctorDecl sig _ _ => .ctorDecl sig none .nil
  | .classDecl mods name members => .classDecl mods name (eraseBodiesList members)
  | .otherNode ch => .otherNode (eraseBodiesList ch)
  | n => n

/-- Body erasure over a sibling list. -/
def eraseBodiesList : NodeList → NodeList
  | .nil => .nil
  | .cons h t => .cons (eraseBodies h) (eraseBodiesList t)

end

/-- Drop the declared type and the initializer (its text and its nested
nodes) of one binding; the variable-export branch reads none of them. -/
def eraseVarInfo (d : VarDecl) : VarDecl :=
  .mk d.name none none .nil

/-- A resolver that resolves nothing, for fixtures that import nothing. -/
def noResolve : String → String → Option String := fun _ _ => none

/-- Fixture: a function whose parameter type contains an open brace, so the
first open brace of its source text precedes the body-opening one. -/
def fileBraceSig : SourceFile :=
  { fileName := "/r/a.ts", isDeclarationFile := false
    stmts := .cons
      (.functionDecl [] (some "f") "function f(o: \x7b x: number \x7d) " (some " return o.x; ")
        .nil)
      .nil
    exportNames := none }

/-- Engine owning only `fileBraceSig`. -/
def engBraceSig : PromptEngine :=
  { rootDir := "/r", program := some { files := [fileBraceSig], resolve := noResolve }
    checkerPresent := true, disk := fun _ => true }

/-- Fixture: an empty program over a root whose disk nevertheless holds a
readme file, exercising the disk-but-not-model branch of `getSkeleton`. -/
def progEmpty : Program := { files := [], resolve := noResolve }

/-- Engine with the empty program and one on-disk non-source file. -/
def engDiskOnly : PromptEngine :=
  { rootDir := "/r", program := some progEmpty
    checkerPresent := true, disk := fun p => p == "/r/readme.txt" }

/-- Fixture: a single non-exported top-level helper function. -/
def fileLocalHelper : SourceFile :=
  { fileName := "/r/h.ts", isDeclarationFile := false
    stmts := .cons
      (.functionDecl [] (some "localOnly") "function localOnly() " (some " return 1; ") .nil)
      .nil
    exportNames := none }

/-- Engine owning only `fileLocalHelper`. -/
def engLocalHelper : PromptEngine :=
  { rootDir := "/r", program := some { files := [fileLocalHelper], resolve := noResolve }
    checkerPresent := true, disk := fun _ => true }

/-- Fixture: one exported, type-annotated, initialized variable binding. -/
def fileTypedVar : SourceFile :=
  { fileName := "/r/v.ts", isDeclarationFile := false
    stmts := .cons
      (.variableStatement ["export"]
        (.cons (.mk "x" (some "number") (some "1") .nil) .nil)
        "export const x: number = 1;")
      .nil
    exportNames := some ["x"] }

/-- Engine owning only `fileTypedVar`. -/
def engTypedVar : PromptEngine :=
  { rootDir := "/r", program := some { files := [fileTypedVar], resolve := noResolve }
    checkerPresent := true, disk := fun _ => true }

/-- Fixture: a file with no statements at all. -/
def fileEmpty : SourceFile :=
  { fileName := "/r/empty.ts", isDeclarationFile := false, stmts := .nil, exportNames := none }

/-- Engine owning only `fileEmpty`. -/
def engNoDecls : PromptEngine :=
  { rootDir := "/r", program := some { files := [fileEmpty], resolve := noResolve }
    checkerPresent := true, disk := fun _ => true }

/-- Fixture resolver: the alias-like specifier resolves into the project,
everything else fails to resolve. -/
def resolveC5 : String → String → Option String :=
  fun raw _ => if raw == "./u" then some "/r/src/u.ts" else none

/-- Fixture: a file importing one resolvable and one unresolvable module. -/
def fileDeps : SourceFile :=
  { fileName := "/r/app.ts", isDeclarationFile := false
    stmts := .cons (.importDecl "import \x7b t \x7d from \x27./u\x27" (some "./u"))
      (.cons (.importDecl "import fs from \x27fs\x27" (some "fs")) .nil)
    exportNames := none }

/-- Engine owning `fileDeps` with the `resolveC5` resolver. -/
def engDeps : PromptEngine :=
  { rootDir := "/r", program := some { files := [fileDeps], resolve := resolveC5 }
    checkerPresent := true, disk := fun _ => true }

/-- Fixture: a file exposing no export symbol beside one exposing two. -/
def fileNoExports : SourceFile :=
  { fileName := "/r/m.ts", isDeclarationFile := false, stmts := .nil, exportNames := some [] }

/-- Fixture: a file exposing the two export names of the repo-map test. -/
def fileTwoExports : SourceFile :=
  { fileName := "/r/n.ts", isDeclarationFile := false, stmts := .nil
    exportNames := some ["add", "Result"] }

/-- Engine owning the two repo-map fixtures. -/
def engRepoMap : PromptEngine :=
  { rootDir := "/r", program := some { files := [fileNoExports, fileTwoExports], resolve := noResolve }
    checkerPresent := true, disk := fun _ => true }

/-- Fixture: a non-matching function (with an empty body) before an
exported variable statement binding the searched name to an arrow
function. -/
def fileLocate : SourceFile :=
  { fileName := "/r/i.ts", isDeclarationFile := false
    stmts := .cons (.functionDecl [] (some "g") "function g() " (some " return 2; ") .nil)
      (.cons (.variableStatement ["export"]
        (.cons (.mk "arrowFunc" none (some "() => 1") .nil) .nil)
        "export const arrowFunc = () => 1;") .nil)
    exportNames := some ["arrowFunc"] }

/-- Engine owning only `fileLocate`. -/
def engLocate : PromptEngine :=
  { rootDir := "/r", program := some { files := [fileLocate], resolve := noResolve }
    checkerPresent := true, disk := fun _ => true }

/-- Fixture: an earlier function whose body nests a function named like a
later exported variable — the nested declaration is the first pre-order
match, shadowing the top-level binding. -/
def fileNested : SourceFile :=
  { fileName := "/r/nest.ts", isDeclarationFile := false
    stmts := .cons
      (.functionDecl [] (some "g") "function g() "
        (some " function arrowFunc() \x7b return 9; \x7d ")
        (.cons (.functionDecl [] (some "arrowFunc") "function arrowFunc() "
          (some " return 9; ") .nil) .nil))
      (.cons (.variableStatement ["export"]
        (.cons (.mk "arrowFunc" none (some "() => 1") .nil) .nil)
        "export const arrowFunc = () => 1;") .nil)
    exportNames := some ["arrowFunc"] }

/-- Engine owning only `fileNested`. -/
def engNested : PromptEngine :=
  { rootDir := "/r", program := some { files := [fileNested], resolve := noResolve }
    checkerPresent := true, disk := fun _ => true }

/-- Fixture file system: an unbounded chain of directories named d, with
one source file at nesting depth twelve. -/
def fsysDeep : FileSys := fun p =>
  if p.length < 12 then [{ name := "d", isDir := true }]
  else if p.length == 12 then [{ name := "deep.ts", isDir := false }]
  else []

/-- Engine whose construction-time refresh failed before any assignment,
leaving both compiler fields unset. -/
def engUninit : PromptEngine := initialEngine "/r" (fun _ => false)

theorem str_ne_empty (s : String) (h : s.data ≠ []) : s ≠ "" := by
  intro he
  exact h (by rw [he])

theorem append3_data (a b c : String) :
    (a ++ b ++ c).data = a.data ++ b.data ++ c.data := by
  rw [String.data_append, String.data_append]

theorem strStartsWith_append (a b : String) : strStartsWith (a ++ b) a = true := by
  simp only [strStartsWith, String.data_append, decide_eq_true_eq]
  exact List.prefix_append a.data b.data

theorem strContains_middle (a b c : String) : strContains (a ++ b ++ c) b = true := by
  simp only [strContains, decide_eq_true_eq, append3_data]
  exact ⟨a.data, c.data, rfl⟩

theorem append_ne_empty_right (a b : String) (h : b ≠ "") : a ++ b ≠ "" := by
  apply str_ne_empty
  rw [String.data_append]
  intro hc
  rcases List.append_eq_nil.mp hc with ⟨_, hb⟩
  apply h
  cases b with
  | mk l => cases hb; rfl

theorem takeWhile_brake (l r : List Char) :
    (l ++ '\x7b' :: r).takeWhile notBrace = l.takeWhile notBrace := by
  induction l with
  | nil => simp [List.takeWhile_cons, notBrace]
  | cons c cs ih => simp only [List.cons_append, List.takeWhile_cons, ih]

theorem takeUntilBrace_some (sig b : String) :
    takeUntilBrace (callableText sig (some b)) = takeUntilBrace sig := by
  have hb : ("\x7b" : String).data = ['\x7b'] := rfl
  have hd : ("\x7d" : String).data = ['\x7d'] := rfl
  have h : (callableText sig (some b)).data = sig.data ++ '\x7b' :: (b.data ++ ['\x7d']) := by
    simp [callableText, String.data_append, hb, hd]
  show String.mk ((callableText sig (some b)).data.takeWhile notBrace) = _
  rw [h, takeWhile_brake]
  rfl

theorem takeUntilBrace_clean (s : String) (h : ∀ c ∈ s.data, c ≠ '\x7b') :
    takeUntilBrace s = s := by
  show String.mk (s.data.takeWhile notBrace) = s
  rw [List.takeWhile_eq_self_iff.mpr (by intro x hx; simp [notBrace, h x hx])]

theorem joinSep_comma_ne_empty (x : String) (xs : List String) (hx : x ≠ "") :
    joinSep ", " (x :: xs) ≠ "" := by
  cases xs with
  | nil => simpa [joinSep] using hx
  | cons y ys =>
    show x ++ ", " ++ joinSep ", " (y :: ys) ≠ ""
    apply str_ne_empty
    rw [append3_data]
    simp [List.append_eq_nil]

theorem stripDotSlash_no_lead (s : String) (h : strStartsWith s "././" = false) :
    strStartsWith (stripDotSlash s) "./" = false := by
  by_cases hs : strStartsWith s "./" = true
  · have hpre : ("./" : String).data <+: s.data := of_decide_eq_true hs
    obtain ⟨t, ht⟩ := hpre
    have hdata : s.data = '.' :: '/' :: t := by rw [← ht]; rfl
    simp only [stripDotSlash, hs, if_true]
    simp only [strStartsWith, hdata, List.drop_succ_cons, List.drop_zero]
    by_contra hc
    simp only [Bool.not_eq_false, decide_eq_true_eq] at hc
    obtain ⟨u, hu⟩ := hc
    have : strStartsWith s "././" = true := by
      simp only [strStartsWith, hdata, decide_eq_true_eq]
      exact ⟨u, by rw [← hu]; rfl⟩
    rw [this] at h
    exact Bool.noConfusion h
  · simp only [stripDotSlash, hs, if_false]
    exact Bool.of_not_eq_true hs

mutual

theorem renderNode_eraseBodies (n : Node) (d : Nat) :
    renderNode (eraseBodies n) d = renderNode n d := by
  cases n with
  | interfaceDecl t => rfl
  | typeAliasDecl t => rfl
  | classDecl mods name members =>
    simp only [eraseBodies, renderNode]
    rw [renderList_eraseBodies members (d + 1)]
  | functionDecl mods name sig body kids =>
    cases body with
    | none => rfl
    | some b =>
      simp only [eraseBodies, renderNode]
      have h1 : callableText sig none = sig := rfl
      rw [h1, takeUntilBrace_some]
  | methodDecl mods nm sig body kids =>
    cases body with
    | none => rfl
    | some b =>
      simp only [eraseBodies, renderNode]
      have h1 : callableText sig none = sig := rfl
      rw [h1, takeUntilBrace_some]
  | ctorDecl sig body kids =>
    cases body with
    | none => rfl
    | some b =>
      simp only [eraseBodies, renderNode]
      have h1 : callableText sig none = sig := rfl
      rw [h1, takeUntilBrace_some]
  | variableStatement mods decls text => rfl
  | exportDecl t s => rfl
  | importDecl t s => rfl
  | otherNode ch =>
    simp only [eraseBodies, renderNode]
    rw [renderList_eraseBodies ch d]

theorem renderList_eraseBodies (l : NodeList) (d : Nat) :
    renderList (eraseBodiesList l) d = renderList l d := by
  cases l with
  | nil => rfl
  | cons h t =>
    simp only [eraseBodiesList, renderList]
    rw [renderNode_eraseBodies h d, renderList_eraseBodies t d]

end

/-- C1 (counterexample): for the concrete file whose only declaration is a
function with an object-typed parameter, the emitted line is cut at the
first open brace, which lies inside the parameter type, so the callable's
full signature text up to its body-opening delimiter never appears in the
rendered output: the claim fails as stated. -/
theorem C1_counterexample :
    getSkeleton engBraceSig "a.ts"
      = "// Skeleton for a.ts\nfunction f(o:; // implementation hidden\n"
    ∧ strContains (getSkeleton engBraceSig "a.ts")
        "function f(o: \x7b x: number \x7d)" = false :=
  ⟨by decide, by decide⟩

/-- C1 (amended): every callable the renderer emits contributes exactly the
line made of the indentation, the trimmed source text up to the FIRST open
brace of the callable (which is the full signature whenever the signature
contains no brace) and the implementation-hidden marker; and the rendering
of any statement list is unchanged when every callable body is erased, so
no textual statement of any body can reach the output. -/
theorem C1_skeleton_callables :
    (∀ mods name sig body kids d,
        renderNode (Node.functionDecl mods name sig body kids) d
          = indentStr d ++ strTrim (takeUntilBrace (callableText sig body))
              ++ "; // implementation hidden\n")
    ∧ (∀ mods nm sig body kids d,
        renderNode (Node.methodDecl mods nm sig body kids) d
          = indentStr d ++ strTrim (takeUntilBrace (callableText sig body))
              ++ "; // implementation hidden\n")
    ∧ (∀ sig body kids d,
        renderNode (Node.ctorDecl sig body kids) d
          = indentStr d ++ strTrim (takeUntilBrace (callableText sig body))
              ++ "; // implementation hidden\n")
    ∧ (∀ mods name sig b kids d, (∀ c ∈ sig.data, c ≠ '\x7b') →
        strContains (renderNode (Node.functionDecl mods name sig (some b) kids) d)
          (strTrim sig ++ "; // implementation hidden") = true)
    ∧ (∀ l d, renderList (eraseBodiesList l) d = renderList l d) := by
  refine ⟨fun _ _ _ _ _ _ => rfl, fun _ _ _ _ _ _ => rfl, fun _ _ _ _ => rfl, ?_,
    renderList_eraseBodies⟩
  intro mods name sig b kids d h
  have hm : ("; // implementation hidden\n" : String)
      = "; // implementation hidden" ++ "\n" := by decide
  have h1 : renderNode (Node.functionDecl mods name sig (some b) kids) d
      = indentStr d ++ (strTrim sig ++ "; // implementation hidden") ++ "\n" := by
    show indentStr d ++ strTrim (takeUntilBrace (callableText sig (some b)))
        ++ "; // implementation hidden\n" = _
    rw [takeUntilBrace_some, takeUntilBrace_clean sig h, hm]
    simp [String.append_assoc]
  rw [h1]
  exact strContains_middle _ _ _

/-- C1 (witness): the amended emission fact evaluated at a brace-free
concrete signature. -/
theorem C1_skeleton_callables_witness :
    (∀ c ∈ ("function g2() " : String).data, c ≠ '\x7b')
    ∧ strContains
        (renderNode
          (Node.functionDecl [] (some "g2") "function g2() " (some " return 2; ") .nil) 0)
        (strTrim "function g2() " ++ "; // implementation hidden") = true :=
  ⟨by decide,
    C1_skeleton_callables.2.2.2.1 [] (some "g2") "function g2() " " return 2; "
      NodeList.nil 0 (by decide)⟩

/-- C2 (counterexample): a path that exists on disk but is absent from the
model makes `getSkeleton` return the skeleton-error sentinel and
`getMethodImplementation` the definition-not-found message, neither of
which is the fixed not-found sentinel the claim promises. -/
theorem C2_counterexample :
    engDiskOnly.program = some progEmpty
    ∧ progEmpty.getSourceFile (pathResolve engDiskOnly.rootDir "readme.txt") = none
    ∧ getSkeleton engDiskOnly "readme.txt" = "// Skeleton Error"
    ∧ getSkeleton engDiskOnly "readme.txt" ≠ "File not found"
    ∧ getMethodImplementation engDiskOnly "readme.txt" "x"
        = "Definition for \x27x\x27 not found in readme.txt" :=
  ⟨rfl, rfl, by decide, by decide, by decide⟩

/-- C2 (amended): on a path absent from the model all three queries return
a fixed sentinel and, being total functions, never throw; the sentinel is
the not-found text for `getDeps` always, and for the other two exactly
when the path is also absent from disk — a path present on disk but not
in the model yields the skeleton-error sentinel respectively the
definition-not-found message. -/
theorem C2_sentinels :
    ∀ (e : PromptEngine) (fp m : String),
      (∀ p, e.program = some p → p.getSourceFile (pathResolve e.rootDir fp) = none) →
      getDeps e fp = "File not found"
      ∧ (e.disk (pathResolve e.rootDir fp) = false →
          getSkeleton e fp = "File not found"
          ∧ getMethodImplementation e fp m = "File not found")
      ∧ (e.disk (pathResolve e.rootDir fp) = true →
          getSkeleton e fp = "// Skeleton Error"
          ∧ getMethodImplementation e fp m
              = "Definition for \x27" ++ m ++ "\x27 not found in " ++ fp) := by
  intro e fp m h
  have hbind : e.program.bind (fun p => p.getSourceFile (pathResolve e.rootDir fp)) = none := by
    cases hp : e.program with
    | none => rfl
    | some p => simpa using h p hp
  refine ⟨?_, ?_, ?_⟩
  · cases hp : e.program with
    | none => simp [getDeps, hp]
    | some p => simp [getDeps, hp, h p hp]
  · intro hd
    exact ⟨by simp [getSkeleton, hbind, hd], by simp [getMethodImplementation, hd]⟩
  · intro hd
    exact ⟨by simp [getSkeleton, hbind, hd], by simp [getMethodImplementation, hd, hbind]⟩

/-- C2 (witness): the amended sentinel behavior at a path absent both from
the model and from disk. -/
theorem C2_sentinels_witness :
    getDeps engDiskOnly "readme2.txt" = "File not found"
    ∧ getSkeleton engDiskOnly "readme2.txt" = "File not found" := by
  have h := C2_sentinels engDiskOnly "readme2.txt" "x" (by intro p hp; cases hp; rfl)
  exact ⟨h.1, (h.2.1 (by decide)).1⟩

/-- C3 (counterexample): a file whose only declaration is a non-exported
top-level helper function still gets a signature line in the skeleton:
the callable branch of the final revision checks no export modifier and
no class membership, so local helpers are rendered, refuting the claim. -/
theorem C3_counterexample :
    getSkeleton engLocalHelper "h.ts"
      = "// Skeleton for h.ts\nfunction localOnly(); // implementation hidden\n"
    ∧ strContains (getSkeleton engLocalHelper "h.ts") "function localOnly()" = true :=
  ⟨by decide, by decide⟩

/-- C3 (amended): the skeleton walk emits the signature line for every
function declaration it reaches, whatever its modifiers — in particular a
non-exported local helper is rendered, never dropped — and that line is
never empty. -/
theorem C3_all_callables_rendered :
    ∀ mods name sig body kids d,
      renderNode (Node.functionDecl mods name sig body kids) d
        = indentStr d ++ strTrim (takeUntilBrace (callableText sig body))
            ++ "; // implementation hidden\n"
      ∧ renderNode (Node.functionDecl mods name sig body kids) d ≠ "" := by
  intro mods name sig body kids d
  refine ⟨rfl, ?_⟩
  show indentStr d ++ strTrim (takeUntilBrace (callableText sig body))
      ++ "; // implementation hidden\n" ≠ ""
  exact append_ne_empty_right _ _ (by decide)

/-- C4 (counterexample): an exported variable with a declared type
annotation is rendered without that annotation — the emitted line drops
the type entirely — refuting the claim that the annotation is
reproduced. -/
theorem C4_counterexample :
    getSkeleton engTypedVar "v.ts"
      = "// Skeleton for v.ts\nexport const x; // variable export\n"
    ∧ strContains (getSkeleton engTypedVar "v.ts") "number" = false :=
  ⟨by decide, by decide⟩

/-- C4 (amended): for an exported variable statement the renderer emits
exactly one synthetic line per bound name, reproducing the joined
modifier text and the binding name followed by the variable-export
marker, always with the const keyword; neither the declared type
annotation nor the initializer can reach the output, since the rendering
is unchanged when both are erased from every binding. -/
theorem varDeclList_toList_map (f : VarDecl → VarDecl) (l : VarDeclList) :
    (VarDeclList.map f l).toList = l.toList.map f := by
  cases l with
  | nil => rfl
  | cons h t =>
    simp only [VarDeclList.map, VarDeclList.toList, List.map_cons,
      varDeclList_toList_map f t]

theorem C4_variable_export_lines :
    ∀ mods decls text d, strContains (joinMods mods) "export" = true →
      renderNode (Node.variableStatement mods decls text) d
        = String.join (decls.toList.map (fun dc =>
            indentStr d ++ joinMods mods ++ " const " ++ dc.name ++ "; // variable export\n"))
      ∧ renderNode (Node.variableStatement mods (decls.map eraseVarInfo) text) d
        = renderNode (Node.variableStatement mods decls text) d := by
  intro mods decls text d h
  constructor
  · simp [renderNode, h]
  · simp only [renderNode, h, if_true, varDeclList_toList_map, List.map_map]
    exact congrArg String.join (List.map_congr_left (fun dc _ => rfl))

theorem append_ne_empty_left (a b : String) (h : a ≠ "") : a ++ b ≠ "" := by
  apply str_ne_empty
  rw [String.data_append]
  intro hc
  rcases List.append_eq_nil.mp hc with ⟨ha, _⟩
  apply h
  cases a with
  | mk l => cases ha; rfl

theorem implList_app_skip (m : String) (l₁ l₂ : NodeList) (h : implList m l₁ = "") :
    implList m (NodeList.app l₁ l₂) = implList m l₂ := by
  cases l₁ with
  | nil => rfl
  | cons hd tl =>
    by_cases hr : implNode m hd = ""
    · have htl : implList m tl = "" := by simpa [implList, hr] using h
      have ih := implList_app_skip m tl l₂ htl
      simp [NodeList.app, implList, hr, ih]
    · exfalso
      apply hr
      have h2 : implList m (NodeList.cons hd tl) = implNode m hd := by simp [implList, hr]
      exact h2.symm.trans h

theorem implDecls_cons (m nm : String) (ty ini : Option String) (kids : NodeList)
    (ds : VarDeclList) (text : String) :
    implDecls m (VarDeclList.cons (VarDecl.mk nm ty ini kids) ds) text
      = (if (if nm == m then text else implList m kids) ≠ ""
         then (if nm == m then text else implList m kids)
         else implDecls m ds text) := rfl

theorem implDecls_app_skip (m : String) (l₁ l₂ : VarDeclList) (text : String)
    (h : implDecls m l₁ text = "") :
    implDecls m (VarDeclList.app l₁ l₂) text = implDecls m l₂ text := by
  cases l₁ with
  | nil => rfl
  | cons hd tl =>
    cases hd with
    | mk nm ty ini kids =>
      rw [implDecls_cons] at h
      have happ : VarDeclList.app (VarDeclList.cons (VarDecl.mk nm ty ini kids) tl) l₂
          = VarDeclList.cons (VarDecl.mk nm ty ini kids) (VarDeclList.app tl l₂) := rfl
      rw [happ, implDecls_cons]
      by_cases hr : (if nm == m then text else implList m kids) = ""
      · rw [if_neg (not_not_intro hr)] at h ⊢
        exact implDecls_app_skip m tl l₂ text h
      · rw [if_pos hr] at h
        exact absurd h hr

/-- C4 (witness): the amended emission fact at one concrete exported,
typed, initialized binding. -/
theorem C4_variable_export_lines_witness :
    strContains (joinMods ["export"]) "export" = true
    ∧ renderNode (Node.variableStatement ["export"]
        (.cons (.mk "y" (some "string") (some "s0") .nil) .nil)
        "export const y: string = s0;") 0
      = "export const y; // variable export\n" := by
  have h := C4_variable_export_lines ["export"]
    (.cons (.mk "y" (some "string") (some "s0") .nil) .nil)
    "export const y: string = s0;" 0 (by decide)
  refine ⟨by decide, ?_⟩
  rw [h.1]
  decide

/-- C5: for a file of the model, `getDeps` renders exactly one line per
top-level import or export-from statement, of shape dash, raw specifier,
arrow, target; a specifier the resolver maps to a file is rendered
relative to the root with normalized separators and one leading
current-directory marker stripped — and stripping never leaves a leading
"./" unless the input had a doubled one, which a relative path cannot —
while an unresolved specifier is rendered with the fixed external-library
marker string, never a path. -/
theorem C5_dependency_lines :
    ∀ (e : PromptEngine) (p : Program) (sf : SourceFile) (fp : String),
      e.program = some p →
      p.getSourceFile (pathResolve e.rootDir fp) = some sf →
      (getDeps e fp =
        (if (sf.stmts.toList.filterMap depSpec).map
              (depLine e.rootDir p.resolve (pathResolve e.rootDir fp)) = []
         then "No local dependencies found."
         else joinSep "\n" ((sf.stmts.toList.filterMap depSpec).map
              (depLine e.rootDir p.resolve (pathResolve e.rootDir fp)))))
      ∧ (∀ raw resolvedFile,
          p.resolve raw (pathResolve e.rootDir fp) = some resolvedFile →
          depLine e.rootDir p.resolve (pathResolve e.rootDir fp) raw
            = "- " ++ raw ++ " -> "
                ++ stripDotSlash (normalizeSep (pathRelative e.rootDir resolvedFile)))
      ∧ (∀ raw, p.resolve raw (pathResolve e.rootDir fp) = none →
          depLine e.rootDir p.resolve (pathResolve e.rootDir fp) raw
            = "- " ++ raw ++ " -> External Library")
      ∧ (∀ s, strStartsWith s "././" = false →
          strStartsWith (stripDotSlash s) "./" = false) := by
  intro e p sf fp he hsf
  refine ⟨?_, ?_, ?_, fun s hs => stripDotSlash_no_lead s hs⟩
  · simp [getDeps, he, hsf]
  · intro raw rf hr
    simp [depLine, hr]
  · intro raw hr
    simp only [depLine, hr]
    have hmerge : (" -> " : String) ++ "External Library" = " -> External Library" := by decide
    rw [String.append_assoc, hmerge]

/-- C5 (witness): the dependency rendering evaluated on a file with one
resolvable and one unresolvable import. -/
theorem C5_dependency_lines_witness :
    getDeps engDeps "app.ts" = "- ./u -> src/u.ts\n- fs -> External Library" := by
  have h := C5_dependency_lines engDeps { files := [fileDeps], resolve := resolveC5 }
    fileDeps "app.ts" rfl rfl
  rw [h.1]
  decide

/-- C6: with an initialized program, the repo map is the newline-join of
one entry per kept file; a file whose export oracle yields no name gets
the literal token none in place of the name list, and a file with
nonempty (and nonempty-named) exports gets them comma-joined. -/
theorem C6_repo_map_entries :
    ∀ (e : PromptEngine) (p : Program),
      e.program = some p → e.checkerPresent = true →
      getRepoMap e = joinSep "\n" ((repoFiles p).map (repoEntry e.rootDir))
      ∧ (∀ f : SourceFile, f.exportNames.getD [] = [] →
          repoEntry e.rootDir f = "[" ++ pathRelative e.rootDir f.fileName ++ "]: none")
      ∧ (∀ (f : SourceFile) (ex : List String), f.exportNames = some ex → ex ≠ [] →
          (∀ n ∈ ex, n ≠ "") →
          repoEntry e.rootDir f
            = "[" ++ pathRelative e.rootDir f.fileName ++ "]: " ++ joinSep ", " ex) := by
  intro e p he hc
  refine ⟨by simp [getRepoMap, he, hc], ?_, ?_⟩
  · intro f hf
    have hval : repoEntry e.rootDir f
        = "[" ++ pathRelative e.rootDir f.fileName ++ "]: " ++ "none" := by
      simp [repoEntry, hf, joinSep]
    rw [hval, String.append_assoc]
    congr 1
  · intro f ex hex hne hnames
    obtain ⟨x, xs, rfl⟩ : ∃ x xs, ex = x :: xs := by
      cases ex with
      | nil => exact absurd rfl hne
      | cons x xs => exact ⟨x, xs, rfl⟩
    have hjoined : joinSep ", " (x :: xs) ≠ "" :=
      joinSep_comma_ne_empty x xs (hnames x (by simp))
    simp only [repoEntry, hex, Option.getD_some]
    rw [if_neg hjoined]

/-- C6 (witness): the repo map entry and the full output evaluated on one
file without exports next to one with two. -/
theorem C6_repo_map_entries_witness :
    repoEntry engRepoMap.rootDir fileNoExports = "[m.ts]: none"
    ∧ getRepoMap engRepoMap = "[m.ts]: none\n[n.ts]: add, Result" := by
  have h := C6_repo_map_entries engRepoMap
    { files := [fileNoExports, fileTwoExports], resolve := noResolve } rfl rfl
  constructor
  · rw [h.2.1 fileNoExports rfl]
    decide
  · rw [h.1]
    decide

/-- C7: the locator returns, for the first pre-order match of the searched
name, that declaration's text — the full enclosing statement text for a
variable binding (so an export modifier on the statement is preserved),
and the declaration's own full text, body included, for a function or a
method.  The first match in pre-order wins: earlier siblings whose whole
subtrees (callable bodies and variable initializers included) produce
nothing are skipped, a non-matching callable is searched through its
body, and within a variable statement a binding match is taken only when
no earlier binding or earlier initializer content matched. -/
theorem C7_locator :
    (∀ (e : PromptEngine) (p : Program) (sf : SourceFile) (fp m : String)
        (l₁ : NodeList) (n : Node) (l₂ : NodeList),
        e.program = some p →
        p.getSourceFile (pathResolve e.rootDir fp) = some sf →
        e.disk (pathResolve e.rootDir fp) = true →
        sf.stmts = NodeList.app l₁ (NodeList.cons n l₂) →
        implList m l₁ = "" →
        implNode m n ≠ "" →
        getMethodImplementation e fp m = implNode m n)
    ∧ (∀ (m : String) (mods : List String) (l₁ : VarDeclList) (d : VarDecl)
        (l₂ : VarDeclList) (text : String),
        implDecls m l₁ text = "" →
        (d.name == m) = true →
        text ≠ "" →
        implNode m (Node.variableStatement mods (VarDeclList.app l₁ (.cons d l₂)) text)
          = text)
    ∧ (∀ (m : String) (mods : List String) (sig : String) (body : Option String)
        (kids : NodeList),
        implNode m (Node.functionDecl mods (some m) sig body kids) = callableText sig body)
    ∧ (∀ (m : String) (mods : List String) (sig : String) (body : Option String)
        (kids : NodeList),
        implNode m (Node.methodDecl mods m sig body kids) = callableText sig body)
    ∧ (∀ (m : String) (mods : List String) (name : Option String) (sig : String)
        (body : Option String) (kids : NodeList),
        name ≠ some m →
        implNode m (Node.functionDecl mods name sig body kids) = implList m kids)
    ∧ (∀ (m sig : String) (body : Option String) (kids : NodeList),
        implNode m (Node.ctorDecl sig body kids) = implList m kids) := by
  refine ⟨?_, ?_, ?_, ?_, ?_, ?_⟩
  · intro e p sf fp m l₁ n l₂ he hsf hd hsplit h1 hn
    have hfull : implList m sf.stmts = implNode m n := by
      rw [hsplit, implList_app_skip m l₁ _ h1]
      simp [implList, hn]
    simp [getMethodImplementation, hd, he, hsf, hfull, hn]
  · intro m mods l₁ d l₂ text h1 hd htext
    cases d with
    | mk nm ty ini kids =>
      show implDecls m (VarDeclList.app l₁ (.cons (.mk nm ty ini kids) l₂)) text = text
      rw [implDecls_app_skip m l₁ _ text h1, implDecls_cons]
      have hnm : (nm == m) = true := hd
      rw [if_pos hnm, if_pos htext]
  · intro m mods sig body kids
    simp [implNode]
  · intro m mods sig body kids
    simp [implNode]
  · intro m mods name sig body kids hne
    have : (name == some m) = false := by
      cases hb : name == some m with
      | false => rfl
      | true => exact absurd (eq_of_beq hb) hne
    simp [implNode, this]
  · intro m sig body kids
    rfl

/-- C7 (witness): locating a name bound by a top-level exported variable
returns the enclosing statement's text, export modifier included, past an
earlier non-matching function with an empty body; and when an earlier
function's body nests a declaration of the searched name, that nested
declaration is the first pre-order match and its own text is returned
instead of the later top-level binding's. -/
theorem C7_locator_witness :
    getMethodImplementation engLocate "i.ts" "arrowFunc"
      = "export const arrowFunc = () => 1;"
    ∧ getMethodImplementation engNested "nest.ts" "arrowFunc"
      = "function arrowFunc() \x7b return 9; \x7d" := by
  constructor
  · have h := C7_locator.1 engLocate { files := [fileLocate], resolve := noResolve } fileLocate
      "i.ts" "arrowFunc"
      (NodeList.cons
        (Node.functionDecl [] (some "g") "function g() " (some " return 2; ") NodeList.nil)
        NodeList.nil)
      (Node.variableStatement ["export"]
        (.cons (.mk "arrowFunc" none (some "() => 1") .nil) .nil)
        "export const arrowFunc = () => 1;")
      NodeList.nil rfl rfl rfl rfl (by decide) (by decide)
    rw [h]
    decide
  · have h := C7_locator.1 engNested { files := [fileNested], resolve := noResolve } fileNested
      "nest.ts" "arrowFunc"
      NodeList.nil
      (Node.functionDecl [] (some "g") "function g() "
        (some " function arrowFunc() \x7b return 9; \x7d ")
        (NodeList.cons
          (Node.functionDecl [] (some "arrowFunc") "function arrowFunc() "
            (some " return 9; ") NodeList.nil)
          NodeList.nil))
      (NodeList.cons
        (Node.variableStatement ["export"]
          (.cons (.mk "arrowFunc" none (some "() => 1") .nil) .nil)
          "export const arrowFunc = () => 1;")
        NodeList.nil)
      rfl rfl rfl rfl (by decide) (by decide)
    rw [h]
    decide

/-- C8 (counterexample): a file with no recognized declarations makes
`getSkeleton` return the bare header line — nonempty, but not the fixed
no-structural-definitions message the claim promises; no revision of the
renderer can reach that message, since the accumulator is seeded with the
header before the walk. -/
theorem C8_counterexample :
    getSkeleton engNoDecls "empty.ts" = "// Skeleton for empty.ts\n"
    ∧ getSkeleton engNoDecls "empty.ts" ≠ "// No structural definitions found."
    ∧ getSkeleton engNoDecls "empty.ts" ≠ "" :=
  ⟨by decide, by decide, by decide⟩

/-- C8 (amended): for every file of the model the skeleton output starts
with the header line naming the requested path and is therefore never the
empty string, even when the file yields no recognized declarations. -/
theorem C8_skeleton_header :
    ∀ (e : PromptEngine) (fp : String) (sf : SourceFile),
      e.program.bind (fun p => p.getSourceFile (pathResolve e.rootDir fp)) = some sf →
      strStartsWith (getSkeleton e fp) ("// Skeleton for " ++ fp ++ "\n") = true
      ∧ getSkeleton e fp ≠ "" := by
  intro e fp sf h
  have hs : getSkeleton e fp
      = "// Skeleton for " ++ fp ++ "\n" ++ renderList sf.stmts 0 := by
    simp [getSkeleton, h]
  constructor
  · rw [hs]
    exact strStartsWith_append _ _
  · rw [hs]
    exact append_ne_empty_left _ _ (append_ne_empty_right _ _ (by decide))

/-- C8 (witness): the header fact evaluated on the declaration-free
fixture file. -/
theorem C8_skeleton_header_witness :
    strStartsWith (getSkeleton engNoDecls "empty.ts")
      ("// Skeleton for " ++ "empty.ts" ++ "\n") = true
    ∧ getSkeleton engNoDecls "empty.ts" ≠ "" :=
  C8_skeleton_header engNoDecls "empty.ts" fileEmpty rfl

theorem gfr_len_bound (fuel : Nat) :
    ∀ (fsys : FileSys) (dir : List String) (depth : Nat),
      MAX_DEPTH + 1 - depth ≤ fuel →
      ∀ f ∈ getFilesRecursive fsys dir depth,
        f.length ≤ dir.length + (MAX_DEPTH + 1 - depth) := by
  induction fuel with
  | zero =>
    intro fsys dir depth hf f hmem
    have hd : depth > MAX_DEPTH := by
      simp only [MAX_DEPTH] at hf ⊢
      omega
    rw [getFilesRecursive] at hmem
    simp [hd] at hmem
  | succ k ih =>
    intro fsys dir depth hf f hmem
    rw [getFilesRecursive] at hmem
    by_cases hd : depth > MAX_DEPTH
    · simp [hd] at hmem
    · rw [dif_neg hd] at hmem
      rw [List.mem_flatMap] at hmem
      obtain ⟨en, _, hf2⟩ := hmem
      by_cases hig : ignoreDirs.contains en.name = true
      · rw [if_pos hig] at hf2
        exact absurd hf2 (List.not_mem_nil f)
      · rw [if_neg hig] at hf2
        by_cases hdir : en.isDir = true
        · rw [if_pos hdir] at hf2
          have hfuel : MAX_DEPTH + 1 - (depth + 1) ≤ k := by
            simp only [MAX_DEPTH] at hf hd ⊢
            omega
          have hlen := ih fsys (dir ++ [en.name]) (depth + 1) hfuel f hf2
          rw [List.length_append] at hlen
          simp only [MAX_DEPTH] at hlen hd ⊢
          simp only [List.length_cons, List.length_nil] at hlen
          omega
        · rw [if_neg hdir] at hf2
          by_cases hsrc : isSourceFile en.name = true
          · rw [if_pos hsrc] at hf2
            rw [List.mem_singleton] at hf2
            subst hf2
            rw [List.length_append]
            simp only [MAX_DEPTH] at hd ⊢
            simp only [List.length_cons, List.length_nil]
            omega
          · rw [if_neg hsrc] at hf2
            exact absurd hf2 (List.not_mem_nil f)

/-- C9: the fallback enumeration is depth-bounded: a call past the maximum
depth returns nothing, every collected file path adds at most the
remaining depth budget plus one component to the starting directory, and
a source file nested more than ten directories below the root is silently
absent from the result — the recursion being total by construction even
over an unboundedly deep (cyclic) directory structure. -/
theorem C9_files_depth_bound :
    (∀ (fsys : FileSys) (dir : List String) (depth : Nat),
        depth > MAX_DEPTH → getFilesRecursive fsys dir depth = [])
    ∧ (∀ (fsys : FileSys) (dir : List String) (depth : Nat) (f : List String),
        f ∈ getFilesRecursive fsys dir depth →
        f.length ≤ dir.length + (MAX_DEPTH + 1 - depth))
    ∧ (∀ (fsys : FileSys) (root p : List String),
        p.length > root.length + MAX_DEPTH + 1 →
        p ∉ getFilesRecursive fsys root 0) := by
  refine ⟨?_, ?_, ?_⟩
  · intro fsys dir depth hd
    rw [getFilesRecursive]
    simp [hd]
  · intro fsys dir depth f hmem
    exact gfr_len_bound (MAX_DEPTH + 1 - depth) fsys dir depth (le_refl _) f hmem
  · intro fsys root p hp hmem
    have hb := gfr_len_bound (MAX_DEPTH + 1) fsys root 0 (by omega) p hmem
    omega

/-- C9 (witness): a source file nested twelve directories deep in an
unbounded directory chain is absent from the enumeration result. -/
theorem C9_files_depth_bound_witness :
    (List.replicate 12 "d" ++ ["deep.ts"]).length
        > ([] : List String).length + MAX_DEPTH + 1
    ∧ (List.replicate 12 "d" ++ ["deep.ts"]) ∉ getFilesRecursive fsysDeep [] 0 :=
  ⟨by decide,
    C9_files_depth_bound.2.2 fsysDeep [] (List.replicate 12 "d" ++ ["deep.ts"]) (by decide)⟩

/-- C10: a refresh whose body threw leaves the engine unchanged — in
particular a fresh engine keeps both compiler fields unset — and on such
an engine `getRepoMap` returns the program-not-initialized sentinel, a
text that does not start with the opening bracket every regular entry
line starts with, instead of throwing. -/
theorem C10_uninitialized_sentinel :
    ∀ (e : PromptEngine) (root : String) (disk : String → Bool),
      refreshResult e none = e
      ∧ (initialEngine root disk).program = none
      ∧ (e.program = none →
          getRepoMap e = "Program not initialized"
          ∧ strStartsWith (getRepoMap e) "[" = false)
      ∧ (∀ (r : String) (f : SourceFile), strStartsWith (repoEntry r f) "[" = true) := by
  intro e root disk
  refine ⟨rfl, rfl, ?_, ?_⟩
  · intro hp
    have hout : getRepoMap e = "Program not initialized" := by
      simp [getRepoMap, hp]
    exact ⟨hout, by rw [hout]; decide⟩
  · intro r f
    simp only [repoEntry]
    simp only [String.append_assoc]
    exact strStartsWith_append _ _

/-- C10 (witness): the sentinel evaluated on the fixture engine whose
construction-time refresh failed. -/
theorem C10_uninitialized_sentinel_witness :
    engUninit.program = none ∧ getRepoMap engUninit = "Program not initialized" :=
  ⟨rfl, ((C10_uninitialized_sentinel engUninit "/r" (fun _ => false)).2.2.1 rfl).1⟩

end TsContextMcp
